import Mathlib

/-!
Verification of the product/variant editing logic of the qissey admin panel
(component `ProductManagement`).

The embedding models the form state (`FormState`), the variant matrix builder
(`setSizes`, `setColors`), the primary-flag selector (`setPrimaryColor`) and the
submit sequence (`handleSubmit`) as pure Lean functions.  External JavaScript
collaborators are modelled as explicit parameters:
  * `Math.random().toString(36).substring(2, 6)` suffixes become a supplied
    stream `rnd : Nat -> String`, consumed in synthesis order;
  * `parseFloat` becomes a supplied function `String -> Rat`;
  * the object-storage upload and every database call get a success/failure
    oracle, and a generated product id is a parameter.
JavaScript string truthiness ("" and null are falsy) is modelled explicitly.
-/

namespace QisseyAdmin

/-- A color library entry (`type ColorItem` in the source). -/
structure ColorItem where
  id : String
  name : String
  hex : String
deriving Repr, DecidableEq

/-- An in-form product variant (`type Variant` in the source).  The optional
database fields `id` / `product_id` are never read by the modelled logic and
are omitted.  Numeric prices are modelled as rationals. -/
structure Variant where
  color_id : Option String
  size : String
  sku : String
  price : Option Rat
  stock_quantity : Int
  image_urls : List String
  is_primary : Bool
deriving Repr, DecidableEq

/-- The product dialog form state (the `formData` React state). -/
structure FormState where
  sku : String
  name : String
  description : String
  price : String
  discount_price : String
  collection_id : String
  stock_quantity : String
  status : String
  fabrics : List String
  variants : List Variant
  colors : List ColorItem
  sizes : List String
deriving Repr, DecidableEq

/-- `resetForm` from the source: the blank form state. -/
def resetForm : FormState :=
  { sku := "", name := "", description := "", price := "", discount_price := ""
    collection_id := "", stock_quantity := "", status := "active", fabrics := []
    variants := [], colors := [], sizes := [] }

/-- The auto-generated variant SKU:
`${prev.sku ? prev.sku + "-" : ""}${colorName.substring(0,3).toUpperCase()}-${size.substring(0,3).toUpperCase()}-${randomSuffix.toUpperCase()}`.
The random suffix is passed in by the caller. -/
def mkVariantSku (productSku : String) (colorName : String) (size : String)
    (suffix : String) : String :=
  (if productSku ≠ "" then productSku ++ "-" else "")
    ++ (colorName.take 3).toUpper ++ "-" ++ (size.take 3).toUpper ++ "-"
    ++ suffix.toUpper

/-- The variant object pushed by `setSizes` / `setColors` for a missing
(color, size) pair. -/
def synthVariant (productSku : String) (c : ColorItem) (size : String)
    (suffix : String) : Variant :=
  { color_id := some c.id, size := size
    sku := mkVariantSku productSku c.name size suffix
    price := none, stock_quantity := 0, image_urls := [], is_primary := false }

/-- The `newVariants.find(v => v.color_id === colorObj.id && v.size === size)`
existence test used by both reconciliation loops. -/
def hasPair (vs : List Variant) (cid : String) (s : String) : Bool :=
  vs.any (fun v => v.color_id == some cid && v.size == s)

/-- The nested `forEach` loops of `setSizes` / `setColors`: walk the pair list
in order; when a pair has no variant in the accumulated list, push a freshly
synthesized variant (consuming the next random suffix `rnd k`). -/
def reconcile (productSku : String) (rnd : Nat → String) :
    Nat → List Variant → List (ColorItem × String) → List Variant
  | _, vs, [] => vs
  | k, vs, p :: ps =>
      if hasPair vs p.1.id p.2 then
        reconcile productSku rnd k vs ps
      else
        reconcile productSku rnd (k + 1)
          (vs ++ [synthVariant productSku p.1 p.2 (rnd k)]) ps

/-- `setSizes` from the source: drop variants whose size left the size set,
then for each size (outer loop) and each selected color (inner loop) ensure a
variant exists. -/
def setSizes (rnd : Nat → String) (sizes : List String) (prev : FormState) :
    FormState :=
  let newVariants := prev.variants.filter (fun v => sizes.contains v.size)
  let pairs := sizes.flatMap (fun s => prev.colors.map (fun c => (c, s)))
  { prev with sizes := sizes, variants := reconcile prev.sku rnd 0 newVariants pairs }

/-- JavaScript truthiness test `v.color_id && colorIds.includes(v.color_id)`
(`null` and the empty string are falsy). -/
def colorIdKept : Option String → List String → Bool
  | none, _ => false
  | some cid, ids => (cid != "") && ids.contains cid

/-- `setColors` from the source: drop variants whose (truthy) color id left the
color set, then for each color (outer loop) and each selected size (inner loop)
ensure a variant exists. -/
def setColors (rnd : Nat → String) (colors : List ColorItem) (prev : FormState) :
    FormState :=
  let colorIds := colors.map ColorItem.id
  let newVariants := prev.variants.filter (fun v => colorIdKept v.color_id colorIds)
  let pairs := colors.flatMap (fun c => prev.sizes.map (fun s => (c, s)))
  { prev with colors := colors, variants := reconcile prev.sku rnd 0 newVariants pairs }

/-- `setPrimaryColor` from the source: each variant's primary flag becomes
`colorId === v.color_id && (first index whose color_id === colorId) === i`. -/
def setPrimaryColor (colorId : String) (prev : FormState) : FormState :=
  { prev with
      variants := prev.variants.mapIdx (fun i v =>
        { v with is_primary :=
            (v.color_id == some colorId) &&
            (prev.variants.findIdx (fun w => w.color_id == some colorId) == i) }) }

/-- Number of variants in `vs` carrying the concrete (color id, size) pair. -/
def pairCount (vs : List Variant) (cid : String) (s : String) : Nat :=
  vs.countP (fun v => v.color_id == some cid && v.size == s)

/-- Matrix invariant: each (c, s) pair of the selected color set crossed with
the selected size set is carried by exactly one variant, and every pair outside
the cross product by none. -/
def matrixInv (fs : FormState) : Prop :=
  ∀ cid s, pairCount fs.variants cid s =
    if cid ∈ fs.colors.map ColorItem.id ∧ s ∈ fs.sizes then 1 else 0

/-- Every variant carries a color from the selected color set and a size from
the selected size set. -/
def variantsInDomain (fs : FormState) : Prop :=
  ∀ v ∈ fs.variants,
    (∃ cid, v.color_id = some cid ∧ cid ∈ fs.colors.map ColorItem.id) ∧
    v.size ∈ fs.sizes

/-- The variant list is exactly a full C × S matrix: one variant per selected
(color, size) pair and nothing else. -/
def matrixConsistent (fs : FormState) : Prop :=
  matrixInv fs ∧ variantsInDomain fs

/-- A pending image file queued by `handleImageUpload`: the file (identified by
its name) and the optional color group it belongs to. -/
structure PendingFile where
  fileName : String
  colorId : Option String
deriving Repr, DecidableEq

/-- A row of the `products` table as written by `handleSubmit` (the identity
column plus every `productPayload` field). -/
structure ProductRow where
  id : String
  sku : String
  name : String
  description : String
  price : Rat
  discount_price : Option Rat
  collection_id : Option String
  fabrics : List String
  status : String
  stock_quantity : Int
deriving Repr, DecidableEq

/-- A row of the `product_variants` table as inserted by `handleSubmit`. -/
structure VariantRow where
  product_id : String
  color_id : Option String
  size : String
  sku : String
  price : Option Rat
  stock_quantity : Int
  image_urls : List String
  is_primary : Bool
deriving Repr, DecidableEq

/-- The remote database state touched by `handleSubmit`. -/
structure DB where
  products : List ProductRow
  prodVariants : List VariantRow
deriving Repr, DecidableEq

/-- One outgoing network call issued by `handleSubmit`. -/
inductive Effect where
  | upload (fileName : String)
  | productUpdate (id : String)
  | productInsert
  | variantDelete (productId : String)
  | variantInsert (rows : List VariantRow)
deriving Repr, DecidableEq

/-- How a `handleSubmit` run terminates. -/
inductive SubmitOutcome where
  | rejectedValidation
  | uploadFailed
  | productWriteFailed
  | deleteFailed
  | insertFailed
  | success
deriving Repr, DecidableEq

/-- Oracles for the external collaborators of `handleSubmit`: per-file upload
results (`none` = that upload rejects), success flags for each database call,
the id generated for an inserted product row, and `parseFloat`. -/
structure SubmitEnv where
  uploadRes : Nat → Option String
  productUpdateOk : Bool
  productInsertOk : Bool
  newProductId : String
  variantDeleteOk : Bool
  variantInsertOk : Bool
  parseF : String → Rat

/-- The `uploadedResults.forEach` body: append the fresh url to the image list
of every variant of the file's color group (skipping duplicates); files with a
falsy color id leave the variants untouched. -/
def applyUpload (url : String) (cid : Option String) (vs : List Variant) :
    List Variant :=
  match cid with
  | none => vs
  | some c =>
      if c = "" then vs
      else
        vs.map (fun v =>
          if v.color_id == some c then
            { v with image_urls :=
                if v.image_urls.contains url then v.image_urls
                else v.image_urls ++ [url] }
          else v)

/-- The `productPayload` object: descriptive fields from the form, and
`stock_quantity` reduced from the variant list — the form's own stock field is
not consulted. -/
def mkProductPayload (parseF : String → Rat) (fs : FormState)
    (currentVariants : List Variant) : ProductRow :=
  { id := ""
    sku := fs.sku
    name := fs.name
    description := fs.description
    price := parseF fs.price
    discount_price :=
      if fs.discount_price ≠ "" then some (parseF fs.discount_price) else none
    collection_id := if fs.collection_id ≠ "" then some fs.collection_id else none
    fabrics := fs.fabrics
    status := fs.status
    stock_quantity :=
      currentVariants.foldl (fun acc v => acc + v.stock_quantity) 0 }

/-- Overwrite a product row with the payload fields, keeping its id. -/
def applyPayload (payload : ProductRow) (r : ProductRow) : ProductRow :=
  { payload with id := r.id }

/-- A variant row as built by the `variantsToInsert` map. -/
def mkVariantRow (pid : String) (v : Variant) : VariantRow :=
  { product_id := pid, color_id := v.color_id, size := v.size, sku := v.sku
    price := v.price, stock_quantity := v.stock_quantity
    image_urls := v.image_urls, is_primary := v.is_primary }

/-- `currentVariants[0].is_primary = true`: force the head variant primary. -/
def forcePrimaryHead : List Variant → List Variant
  | [] => []
  | v :: rest => { v with is_primary := true } :: rest

/-- The primary-flag fixup before insertion: when at least one variant exists
and none is flagged primary, the head variant is forced primary. -/
def primaryAdjusted (currentVariants : List Variant) : List Variant :=
  if currentVariants.length > 0 && !(currentVariants.any Variant.is_primary)
  then forcePrimaryHead currentVariants else currentVariants

/-- The `if (productId)` block of `handleSubmit`: delete every variant row of
the product, force a primary variant if none is flagged, then insert the full
current list (when non-empty). -/
def persistVariants (env : SubmitEnv) (currentVariants : List Variant)
    (pid : String) (db : DB) (trace : List Effect) :
    SubmitOutcome × DB × List Effect :=
  if pid = "" then (.success, db, trace)
  else if env.variantDeleteOk = false then
    (.deleteFailed, db, trace ++ [.variantDelete pid])
  else
    let db1 : DB :=
      { db with prodVariants := db.prodVariants.filter (fun r => !(r.product_id == pid)) }
    let rows := (primaryAdjusted currentVariants).map (mkVariantRow pid)
    if rows.length > 0 then
      if env.variantInsertOk = false then
        (.insertFailed, db1, trace ++ [.variantDelete pid, .variantInsert rows])
      else
        (.success, { db1 with prodVariants := db1.prodVariants ++ rows },
          trace ++ [.variantDelete pid, .variantInsert rows])
    else
      (.success, db1, trace ++ [.variantDelete pid])

/-- The local `currentVariants` copy after all uploads resolved: the upload
results are folded over the variant list in pending-file order. -/
def uploadMerged (env : SubmitEnv) (fs : FormState)
    (pending : List PendingFile) : List Variant :=
  pending.enum.foldl
    (fun vs p => applyUpload ((env.uploadRes p.1).getD "") p.2.colorId vs)
    fs.variants

/-- `handleSubmit` from the source, as a function of the form state, the
pending upload queue, the edited product id (`none` = creating) and the remote
database; returns the outcome, the final database and the ordered trace of
network calls. -/
def handleSubmit (env : SubmitEnv) (editing : Option String) (fs : FormState)
    (pending : List PendingFile) (db : DB) : SubmitOutcome × DB × List Effect :=
  if fs.colors.length > 0 && fs.variants.length == 0 then
    (.rejectedValidation, db, [])
  else
    let uploadTrace := pending.map (fun pf => Effect.upload pf.fileName)
    if (List.range pending.length).any (fun i => (env.uploadRes i).isNone) then
      (.uploadFailed, db, uploadTrace)
    else
      let currentVariants := uploadMerged env fs pending
      let payload := mkProductPayload env.parseF fs currentVariants
      match editing with
      | some pid =>
          if env.productUpdateOk = false then
            (.productWriteFailed, db, uploadTrace ++ [.productUpdate pid])
          else
            let db1 : DB :=
              { db with products :=
                  db.products.map (fun r => if r.id == pid then applyPayload payload r else r) }
            persistVariants env currentVariants pid db1
              (uploadTrace ++ [.productUpdate pid])
      | none =>
          if env.productInsertOk = false then
            (.productWriteFailed, db, uploadTrace ++ [.productInsert])
          else
            let db1 : DB :=
              { db with products := db.products ++ [{ payload with id := env.newProductId }] }
            persistVariants env currentVariants env.newProductId db1
              (uploadTrace ++ [.productInsert])

/-! ### Counting lemmas for the reconciliation loop -/

theorem pairCount_append (vs ws : List Variant) (cid s : String) :
    pairCount (vs ++ ws) cid s = pairCount vs cid s + pairCount ws cid s :=
  List.countP_append _ _ _

theorem hasPair_iff_pairCount (vs : List Variant) (cid s : String) :
    hasPair vs cid s = true ↔ 0 < pairCount vs cid s := by
  simp [hasPair, pairCount, List.any_eq_true, List.countP_pos_iff]

theorem hasPair_append (vs ws : List Variant) (cid s : String) :
    hasPair (vs ++ ws) cid s = (hasPair vs cid s || hasPair ws cid s) := by
  simp [hasPair, List.any_append]

theorem pairCount_synth (pre : String) (c : ColorItem) (sz suf cid s : String) :
    pairCount [synthVariant pre c sz suf] cid s =
      if c.id = cid ∧ sz = s then 1 else 0 := by
  by_cases h : c.id = cid ∧ sz = s
  · simp [pairCount, synthVariant, List.countP_cons, h.1, h.2, if_pos h]
  · rw [if_neg h]
    simp only [pairCount, List.countP_cons, List.countP_nil, Nat.zero_add]
    rw [if_neg]
    simp only [synthVariant, Bool.and_eq_true, beq_iff_eq, Option.some.injEq]
    intro hc
    exact h ⟨hc.1, hc.2⟩

theorem hasPair_synth (pre : String) (c : ColorItem) (sz suf cid s : String) :
    hasPair [synthVariant pre c sz suf] cid s = true ↔ c.id = cid ∧ sz = s := by
  rw [hasPair_iff_pairCount, pairCount_synth]
  by_cases h : c.id = cid ∧ sz = s <;> simp [h]

/-- Main characterization of the reconciliation loop: a concrete (color id,
size) pair is carried once afterwards when it was absent but listed, and its
multiplicity is untouched otherwise. -/
theorem reconcile_pairCount (pre : String) (rnd : Nat → String) (cid s : String) :
    ∀ (ps : List (ColorItem × String)) (k : Nat) (vs : List Variant),
      pairCount (reconcile pre rnd k vs ps) cid s =
        if pairCount vs cid s = 0 ∧ (∃ p ∈ ps, p.1.id = cid ∧ p.2 = s) then 1
        else pairCount vs cid s := by
  intro ps
  induction ps with
  | nil => intro k vs; simp [reconcile]
  | cons p ps ih =>
      intro k vs
      have hcons : ∀ hm : ¬(p.1.id = cid ∧ p.2 = s),
          (∃ q ∈ p :: ps, q.1.id = cid ∧ q.2 = s) ↔
          (∃ q ∈ ps, q.1.id = cid ∧ q.2 = s) := by
        intro hm
        simp only [List.mem_cons]
        constructor
        · rintro ⟨q, hq | hq, hqm⟩
          · exact absurd (hq ▸ hqm) hm
          · exact ⟨q, hq, hqm⟩
        · rintro ⟨q, hq, hqm⟩; exact ⟨q, Or.inr hq, hqm⟩
      cases hex : hasPair vs p.1.id p.2 with
      | true =>
          rw [reconcile, if_pos hex, ih]
          by_cases hm : p.1.id = cid ∧ p.2 = s
          · have hpos : 0 < pairCount vs cid s := by
              rw [← hm.1, ← hm.2]
              exact (hasPair_iff_pairCount vs p.1.id p.2).mp hex
            have hne : pairCount vs cid s ≠ 0 := by omega
            rw [if_neg (fun hc => hne hc.1), if_neg (fun hc => hne hc.1)]
          · simp only [hcons hm]
      | false =>
          rw [reconcile, if_neg (by simp [hex]), ih]
          have hcnt : pairCount (vs ++ [synthVariant pre p.1 p.2 (rnd k)]) cid s =
              pairCount vs cid s + if p.1.id = cid ∧ p.2 = s then 1 else 0 := by
            rw [pairCount_append, pairCount_synth]
          by_cases hm : p.1.id = cid ∧ p.2 = s
          · have h0 : pairCount vs cid s = 0 := by
              by_contra hne
              have hpos := (hasPair_iff_pairCount vs cid s).mpr (Nat.pos_of_ne_zero hne)
              rw [hm.1, hm.2] at hex
              rw [hex] at hpos
              exact Bool.false_ne_true hpos
            rw [hcnt, if_pos hm, h0]
            rw [if_neg (fun hc => absurd hc.1 (by omega)),
              if_pos ⟨rfl, p, List.mem_cons_self p ps, hm⟩]
          · rw [hcnt, if_neg hm, Nat.add_zero]; simp only [hcons hm]

/-- When every listed pair is already carried, the reconciliation loop is a
no-op. -/
theorem reconcile_of_present (pre : String) (rnd : Nat → String) :
    ∀ (ps : List (ColorItem × String)) (k : Nat) (vs : List Variant),
      (∀ p ∈ ps, hasPair vs p.1.id p.2 = true) →
      reconcile pre rnd k vs ps = vs := by
  intro ps
  induction ps with
  | nil => intro k vs _; rfl
  | cons p ps ih =>
      intro k vs h
      rw [reconcile, if_pos (h p (List.mem_cons_self p ps))]
      exact ih k vs (fun q hq => h q (List.mem_cons_of_mem p hq))

/-- A present prefix of the pair list is skipped without effect. -/
theorem reconcile_append_of_present (pre : String) (rnd : Nat → String) :
    ∀ (A B : List (ColorItem × String)) (k : Nat) (vs : List Variant),
      (∀ p ∈ A, hasPair vs p.1.id p.2 = true) →
      reconcile pre rnd k vs (A ++ B) = reconcile pre rnd k vs B := by
  intro A
  induction A with
  | nil => intro B k vs _; rfl
  | cons p A ih =>
      intro B k vs h
      rw [List.cons_append, reconcile, if_pos (h p (List.mem_cons_self p A))]
      exact ih B k vs (fun q hq => h q (List.mem_cons_of_mem p hq))

/-- Everything in the reconciled list is an original variant or a freshly
synthesized one for a listed pair. -/
theorem mem_reconcile (pre : String) (rnd : Nat → String) :
    ∀ (ps : List (ColorItem × String)) (k : Nat) (vs : List Variant)
      (v : Variant), v ∈ reconcile pre rnd k vs ps →
      v ∈ vs ∨ ∃ p ∈ ps, ∃ j, v = synthVariant pre p.1 p.2 (rnd j) := by
  intro ps
  induction ps with
  | nil => intro k vs v hv; exact Or.inl hv
  | cons p ps ih =>
      intro k vs v hv
      by_cases hex : hasPair vs p.1.id p.2 = true
      · rw [reconcile, if_pos hex] at hv
        rcases ih k vs v hv with h | ⟨q, hq, j, hj⟩
        · exact Or.inl h
        · exact Or.inr ⟨q, List.mem_cons_of_mem p hq, j, hj⟩
      · rw [reconcile, if_neg hex] at hv
        rcases ih (k + 1) _ v hv with h | ⟨q, hq, j, hj⟩
        · rcases List.mem_append.mp h with h | h
          · exact Or.inl h
          · exact Or.inr ⟨p, List.mem_cons_self p ps,
              k, by simpa using h⟩
        · exact Or.inr ⟨q, List.mem_cons_of_mem p hq, j, hj⟩

/-- The variants synthesized for one fresh color, one per size in order,
consuming consecutive random suffixes starting at `k`. -/
def synthColumn (pre : String) (rnd : Nat → String) (c : ColorItem) :
    Nat → List String → List Variant
  | _, [] => []
  | k, s :: ss => synthVariant pre c s (rnd k) :: synthColumn pre rnd c (k + 1) ss

theorem synthColumn_length (pre : String) (rnd : Nat → String) (c : ColorItem) :
    ∀ (k : Nat) (ss : List String),
      (synthColumn pre rnd c k ss).length = ss.length := by
  intro k ss
  induction ss generalizing k with
  | nil => rfl
  | cons s ss ih => simp [synthColumn, ih]

theorem mem_synthColumn (pre : String) (rnd : Nat → String) (c : ColorItem) :
    ∀ (k : Nat) (ss : List String) (v : Variant),
      v ∈ synthColumn pre rnd c k ss →
      ∃ s ∈ ss, ∃ j, v = synthVariant pre c s (rnd j) := by
  intro k ss
  induction ss generalizing k with
  | nil => intro v hv; cases hv
  | cons s ss ih =>
      intro v hv
      rcases List.mem_cons.mp hv with h | h
      · exact ⟨s, List.mem_cons_self s ss, k, h⟩
      · rcases ih (k + 1) v h with ⟨s', hs', j, hj⟩
        exact ⟨s', List.mem_cons_of_mem s hs', j, hj⟩

/-- Reconciling the pairs of one color absent from the variant list appends a
fresh variant per (distinct) size, in size order. -/
theorem reconcile_fresh_column (pre : String) (rnd : Nat → String)
    (c : ColorItem) :
    ∀ (ss : List String) (k : Nat) (vs : List Variant),
      ss.Nodup → (∀ s ∈ ss, hasPair vs c.id s = false) →
      reconcile pre rnd k vs (ss.map (fun s => (c, s))) =
        vs ++ synthColumn pre rnd c k ss := by
  intro ss
  induction ss with
  | nil => intro k vs _ _; simp [reconcile, synthColumn]
  | cons s ss ih =>
      intro k vs hnd habs
      rw [List.map_cons, reconcile,
        if_neg (by simp [habs s (List.mem_cons_self s ss)])]
      rw [ih (k + 1) _ (List.nodup_cons.mp hnd).2 ?fresh]
      · simp [synthColumn]
      case fresh =>
        intro s' hs'
        rw [hasPair_append]
        have h1 : hasPair vs c.id s' = false :=
          habs s' (List.mem_cons_of_mem s hs')
        have h2 : hasPair [synthVariant pre c s (rnd k)] c.id s' = false := by
          rw [Bool.eq_false_iff]
          intro hcon
          have := (hasPair_synth pre c s (rnd k) c.id s').mp hcon
          exact (List.nodup_cons.mp hnd).1 (this.2 ▸ hs')
        rw [h1, h2]
        rfl

/-! ### Effect of the two filters on pair multiplicities -/

theorem pairCount_filter_size (vs : List Variant) (ss : List String)
    (cid s : String) :
    pairCount (vs.filter (fun v => ss.contains v.size)) cid s =
      if s ∈ ss then pairCount vs cid s else 0 := by
  rw [pairCount, List.countP_filter]
  by_cases h : s ∈ ss
  · rw [if_pos h, pairCount]
    refine List.countP_congr (fun v _ => ?_)
    constructor
    · intro hv
      rw [Bool.and_eq_true] at hv
      exact hv.1
    · intro hv
      have hsize : v.size = s := by
        rw [Bool.and_eq_true] at hv
        simpa using hv.2
      rw [Bool.and_eq_true]
      refine ⟨hv, ?_⟩
      rw [hsize]
      simpa using h
  · rw [if_neg h, List.countP_eq_zero]
    intro v _ hv
    rw [Bool.and_eq_true, Bool.and_eq_true] at hv
    obtain ⟨⟨_, hsz⟩, hmem⟩ := hv
    have hsize : v.size = s := by simpa using hsz
    rw [hsize] at hmem
    exact h (by simpa using hmem)

theorem pairCount_filter_color (vs : List Variant) (ids : List String)
    (cid s : String) :
    pairCount (vs.filter (fun v => colorIdKept v.color_id ids)) cid s =
      if cid ≠ "" ∧ cid ∈ ids then pairCount vs cid s else 0 := by
  rw [pairCount, List.countP_filter]
  by_cases h : cid ≠ "" ∧ cid ∈ ids
  · rw [if_pos h, pairCount]
    refine List.countP_congr (fun v _ => ?_)
    constructor
    · intro hv
      rw [Bool.and_eq_true] at hv
      exact hv.1
    · intro hv
      have hcolor : v.color_id = some cid := by
        rw [Bool.and_eq_true] at hv
        simpa using hv.1
      rw [Bool.and_eq_true]
      refine ⟨hv, ?_⟩
      rw [hcolor]
      simp only [colorIdKept, Bool.and_eq_true, bne_iff_ne, ne_eq]
      exact ⟨h.1, by simpa using h.2⟩
  · rw [if_neg h, List.countP_eq_zero]
    intro v _ hv
    rw [Bool.and_eq_true, Bool.and_eq_true] at hv
    obtain ⟨⟨hcid, _⟩, hkept⟩ := hv
    have hcolor : v.color_id = some cid := by simpa using hcid
    rw [hcolor] at hkept
    simp only [colorIdKept, Bool.and_eq_true, bne_iff_ne, ne_eq] at hkept
    exact h ⟨hkept.1, by simpa using hkept.2⟩

/-- Shape of the pair list built by `setSizes` (sizes outer, colors inner). -/
theorem exists_pair_sizesOuter (ss : List String) (cs : List ColorItem)
    (cid s : String) :
    (∃ p ∈ ss.flatMap (fun s' => cs.map (fun c => (c, s'))),
        (p : ColorItem × String).1.id = cid ∧ p.2 = s) ↔
      s ∈ ss ∧ cid ∈ cs.map ColorItem.id := by
  constructor
  · rintro ⟨p, hp, hid, hsz⟩
    rcases List.mem_flatMap.mp hp with ⟨s', hs', hp'⟩
    rcases List.mem_map.mp hp' with ⟨c, hc, rfl⟩
    exact ⟨by rw [← hsz]; exact hs', List.mem_map.mpr ⟨c, hc, hid⟩⟩
  · rintro ⟨hs, hcid⟩
    rcases List.mem_map.mp hcid with ⟨c, hc, hid⟩
    exact ⟨(c, s), List.mem_flatMap.mpr ⟨s, hs, List.mem_map.mpr ⟨c, hc, rfl⟩⟩,
      hid, rfl⟩

/-- Shape of the pair list built by `setColors` (colors outer, sizes inner). -/
theorem exists_pair_colorsOuter (cs : List ColorItem) (ss : List String)
    (cid s : String) :
    (∃ p ∈ cs.flatMap (fun c => ss.map (fun s' => (c, s'))),
        (p : ColorItem × String).1.id = cid ∧ p.2 = s) ↔
      s ∈ ss ∧ cid ∈ cs.map ColorItem.id := by
  constructor
  · rintro ⟨p, hp, hid, hsz⟩
    rcases List.mem_flatMap.mp hp with ⟨c, hc, hp'⟩
    rcases List.mem_map.mp hp' with ⟨s', hs', rfl⟩
    exact ⟨by rw [← hsz]; exact hs', List.mem_map.mpr ⟨c, hc, hid⟩⟩
  · rintro ⟨hs, hcid⟩
    rcases List.mem_map.mp hcid with ⟨c, hc, hid⟩
    exact ⟨(c, s), List.mem_flatMap.mpr ⟨c, hc, List.mem_map.mpr ⟨s, hs, rfl⟩⟩,
      hid, rfl⟩

/-! ### The matrix invariant is preserved by both updates -/

theorem setSizes_matrixInv (rnd : Nat → String) (ss : List String)
    (fs : FormState) (h : matrixInv fs) : matrixInv (setSizes rnd ss fs) := by
  intro cid s
  have hv := h cid s
  simp only [setSizes]
  rw [reconcile_pairCount, pairCount_filter_size, hv]
  by_cases hss : s ∈ ss <;> by_cases hcs : cid ∈ fs.colors.map ColorItem.id <;>
    by_cases hfs : s ∈ fs.sizes <;>
    simp_all [List.mem_map, exists_pair_sizesOuter] <;> aesop

theorem setColors_matrixInv (rnd : Nat → String) (cs : List ColorItem)
    (fs : FormState) (h : matrixInv fs) : matrixInv (setColors rnd cs fs) := by
  intro cid s
  have hv := h cid s
  simp only [setColors]
  rw [reconcile_pairCount, pairCount_filter_color, hv]
  by_cases hemp : cid = "" <;> by_cases hcs : cid ∈ cs.map ColorItem.id <;>
    by_cases hold : cid ∈ fs.colors.map ColorItem.id <;>
    by_cases hfs : s ∈ fs.sizes <;>
    simp_all [List.mem_map, exists_pair_colorsOuter]

theorem setSizes_domain (rnd : Nat → String) (ss : List String)
    (fs : FormState) (h : variantsInDomain fs) :
    variantsInDomain (setSizes rnd ss fs) := by
  simp only [variantsInDomain, setSizes]
  intro v hv
  rcases mem_reconcile _ _ _ _ _ v hv with hmem | ⟨p, hp, j, rfl⟩
  · have hmf := List.mem_filter.mp hmem
    refine ⟨(h v hmf.1).1, ?_⟩
    simpa using hmf.2
  · rcases List.mem_flatMap.mp hp with ⟨s', hs', hp'⟩
    rcases List.mem_map.mp hp' with ⟨c, hc, rfl⟩
    exact ⟨⟨c.id, rfl, List.mem_map.mpr ⟨c, hc, rfl⟩⟩, by simpa [synthVariant] using hs'⟩

theorem setColors_domain (rnd : Nat → String) (cs : List ColorItem)
    (fs : FormState) (h : variantsInDomain fs) :
    variantsInDomain (setColors rnd cs fs) := by
  simp only [variantsInDomain, setColors]
  intro v hv
  rcases mem_reconcile _ _ _ _ _ v hv with hmem | ⟨p, hp, j, rfl⟩
  · have hmf := List.mem_filter.mp hmem
    refine ⟨?_, (h v hmf.1).2⟩
    have hkept := hmf.2
    cases hcol : v.color_id with
    | none => rw [hcol] at hkept; cases hkept
    | some c' =>
        rw [hcol] at hkept
        simp only [colorIdKept, Bool.and_eq_true] at hkept
        exact ⟨c', rfl, by simpa using hkept.2⟩
  · rcases List.mem_flatMap.mp hp with ⟨c, hc, hp'⟩
    rcases List.mem_map.mp hp' with ⟨s', hs', rfl⟩
    exact ⟨⟨c.id, rfl, List.mem_map.mpr ⟨c, hc, rfl⟩⟩, by simpa [synthVariant] using hs'⟩

/-- One color-set or size-set update, together with the random-suffix stream it
consumed. -/
inductive MatrixUpdate where
  | colorsUpdate (rnd : Nat → String) (cs : List ColorItem)
  | sizesUpdate (rnd : Nat → String) (ss : List String)

/-- Apply one update to the draft. -/
def applyMatrixUpdate (fs : FormState) : MatrixUpdate → FormState
  | .colorsUpdate rnd cs => setColors rnd cs fs
  | .sizesUpdate rnd ss => setSizes rnd ss fs

theorem applyMatrixUpdate_consistent (fs : FormState) (u : MatrixUpdate)
    (h : matrixConsistent fs) : matrixConsistent (applyMatrixUpdate fs u) := by
  cases u with
  | colorsUpdate rnd cs =>
      exact ⟨setColors_matrixInv rnd cs fs h.1, setColors_domain rnd cs fs h.2⟩
  | sizesUpdate rnd ss =>
      exact ⟨setSizes_matrixInv rnd ss fs h.1, setSizes_domain rnd ss fs h.2⟩

theorem foldl_applyMatrixUpdate_consistent (us : List MatrixUpdate) :
    ∀ fs : FormState, matrixConsistent fs →
      matrixConsistent (us.foldl applyMatrixUpdate fs) := by
  induction us with
  | nil => intro fs h; exact h
  | cons u us ih =>
      intro fs h
      exact ih _ (applyMatrixUpdate_consistent fs u h)

/-- A consistent draft with no color or no size has no variant. -/
theorem matrixConsistent_empty_axis (fs : FormState) (h : matrixConsistent fs)
    (hax : fs.colors = [] ∨ fs.sizes = []) : fs.variants = [] := by
  rcases List.eq_nil_or_concat fs.variants with hnil | _
  · exact hnil
  · rw [List.eq_nil_iff_forall_not_mem]
    intro v hv
    have hd := h.2 v hv
    rcases hax with hc | hs
    · rcases hd.1 with ⟨cid, _, hmem⟩
      rw [hc] at hmem
      simp at hmem
    · have := hd.2
      rw [hs] at this
      simp at this

theorem matrixConsistent_of_empty_start (fs : FormState)
    (h0 : fs.variants = []) (hax : fs.colors = [] ∨ fs.sizes = []) :
    matrixConsistent fs := by
  constructor
  · intro cid s
    rw [h0]
    have : ¬(cid ∈ fs.colors.map ColorItem.id ∧ s ∈ fs.sizes) := by
      rcases hax with hc | hs
      · rw [hc]; rintro ⟨hmem, _⟩; simp at hmem
      · rw [hs]; rintro ⟨_, hmem⟩; simp at hmem
    rw [if_neg this]
    rfl
  · intro v hv
    rw [h0] at hv
    cases hv

/-- Kept color ids stay kept when the id list grows on the right. -/
theorem colorIdKept_append (co : Option String) (ids more : List String)
    (h : colorIdKept co ids = true) : colorIdKept co (ids ++ more) = true := by
  cases co with
  | none => cases h
  | some cid =>
      simp only [colorIdKept, Bool.and_eq_true] at h ⊢
      have h2 : cid ∈ ids := by simpa using h.2
      exact ⟨h.1, by simpa using List.mem_append_left more h2⟩

/-- The sizes of a synthesized column are the listed sizes, in order. -/
theorem synthColumn_map_size (pre : String) (rnd : Nat → String)
    (c : ColorItem) :
    ∀ (k : Nat) (ss : List String),
      (synthColumn pre rnd c k ss).map Variant.size = ss := by
  intro k ss
  induction ss generalizing k with
  | nil => rfl
  | cons s ss ih => simp [synthColumn, synthVariant, ih]

/-! ### Claim C1 -/

/-- C1: starting from a draft with an empty variant list (and at least one
empty axis, as after `resetForm`), any sequence of `setColors` / `setSizes`
updates leaves the variant list an exact one-variant-per-pair C × S matrix; in
particular an empty color set or an empty size set forces an empty variant
list. -/
theorem claim1_variant_matrix_is_cross_product (fs0 : FormState)
    (us : List MatrixUpdate) (h0 : fs0.variants = [])
    (hax : fs0.colors = [] ∨ fs0.sizes = []) :
    matrixConsistent (us.foldl applyMatrixUpdate fs0) ∧
    (((us.foldl applyMatrixUpdate fs0).colors = [] ∨
        (us.foldl applyMatrixUpdate fs0).sizes = []) →
      (us.foldl applyMatrixUpdate fs0).variants = []) := by
  have hc := foldl_applyMatrixUpdate_consistent us fs0
    (matrixConsistent_of_empty_start fs0 h0 hax)
  exact ⟨hc, fun h => matrixConsistent_empty_axis _ hc h⟩

/-- Concrete color fixtures used by the witnesses. -/
def wRed : ColorItem := { id := "c-red", name := "Red", hex := "#ff0000" }

def wBlue : ColorItem := { id := "c-blue", name := "Blue", hex := "#0000ff" }

/-- A concrete random-suffix stream used by the witnesses. -/
def wRnd : Nat → String := fun k => toString k

/-- A concrete update script: pick colors {Red, Blue}, then sizes {S, M}. -/
def wScript : List MatrixUpdate :=
  [MatrixUpdate.colorsUpdate wRnd [wRed, wBlue],
   MatrixUpdate.sizesUpdate wRnd ["S", "M"]]

theorem claim1_witness :
    resetForm.variants = [] ∧ (resetForm.colors = [] ∨ resetForm.sizes = []) ∧
    (matrixConsistent (wScript.foldl applyMatrixUpdate resetForm) ∧
      (((wScript.foldl applyMatrixUpdate resetForm).colors = [] ∨
          (wScript.foldl applyMatrixUpdate resetForm).sizes = []) →
        (wScript.foldl applyMatrixUpdate resetForm).variants = [])) :=
  ⟨rfl, Or.inl rfl,
    claim1_variant_matrix_is_cross_product resetForm wScript rfl (Or.inl rfl)⟩

/-! ### Claim C2 -/

/-- C2: on a full C × S matrix, `setSizes` with one size removed deletes
exactly the variants of that size and returns every other variant unchanged in
every field (the result is literally the filtered original list). -/
theorem claim2_setSizes_removes_exactly_dropped_size (rnd : Nat → String)
    (fs : FormState) (s0 : String)
    (hfull : ∀ c ∈ fs.colors, ∀ s ∈ fs.sizes, pairCount fs.variants c.id s = 1)
    (hdom : ∀ v ∈ fs.variants, v.size ∈ fs.sizes)
    (hnd : fs.sizes.Nodup) (hs0 : s0 ∈ fs.sizes) :
    (setSizes rnd (fs.sizes.erase s0) fs).variants =
      fs.variants.filter (fun v => !(v.size == s0)) := by
  simp only [setSizes]
  rw [reconcile_of_present]
  · refine List.filter_congr (fun v hv => ?_)
    have hvs := hdom v hv
    by_cases hvs0 : v.size = s0
    · have hnot : s0 ∉ fs.sizes.erase s0 := hnd.not_mem_erase
      simp [hvs0, hnot]
    · have hin : v.size ∈ fs.sizes.erase s0 :=
        (List.Nodup.mem_erase_iff hnd).mpr ⟨hvs0, hvs⟩
      simp [hvs0, hin]
  · intro p hp
    rcases List.mem_flatMap.mp hp with ⟨s', hs', hp'⟩
    rcases List.mem_map.mp hp' with ⟨c, hc, rfl⟩
    rw [hasPair_iff_pairCount, pairCount_filter_size, if_pos hs']
    rw [hfull c hc s' (List.mem_of_mem_erase hs')]
    exact Nat.one_pos

/-- A concrete full 2 × 2 draft built by the update script. -/
def wFull : FormState := wScript.foldl applyMatrixUpdate resetForm

theorem claim2_witness :
    (∀ c ∈ wFull.colors, ∀ s ∈ wFull.sizes, pairCount wFull.variants c.id s = 1) ∧
    (∀ v ∈ wFull.variants, v.size ∈ wFull.sizes) ∧
    wFull.sizes.Nodup ∧ "M" ∈ wFull.sizes ∧
    (setSizes wRnd (wFull.sizes.erase "M") wFull).variants =
      wFull.variants.filter (fun v => !(v.size == "M")) :=
  ⟨by decide, by decide, by decide, by decide,
    claim2_setSizes_removes_exactly_dropped_size wRnd wFull "M"
      (by decide) (by decide) (by decide) (by decide)⟩

/-! ### Claim C3 -/

/-- C3: on a full C × S matrix, `setColors` with one new color appended leaves
every pre-existing variant unchanged and appends exactly one fresh variant per
size (in size order), each with stock 0, no price override, no images and a
cleared primary flag. -/
theorem claim3_setColors_adds_column (rnd : Nat → String) (fs : FormState)
    (c : ColorItem)
    (hfull : ∀ c' ∈ fs.colors, ∀ s ∈ fs.sizes, pairCount fs.variants c'.id s = 1)
    (hkept : ∀ v ∈ fs.variants,
      colorIdKept v.color_id (fs.colors.map ColorItem.id) = true)
    (hnd : fs.sizes.Nodup)
    (hnew : ∀ v ∈ fs.variants, ¬ v.color_id = some c.id) :
    ∃ news : List Variant,
      (setColors rnd (fs.colors ++ [c]) fs).variants = fs.variants ++ news ∧
      news.length = fs.sizes.length ∧
      news.map Variant.size = fs.sizes ∧
      ∀ v ∈ news, v.color_id = some c.id ∧ v.stock_quantity = 0 ∧
        v.price = none ∧ v.image_urls = [] ∧ v.is_primary = false := by
  refine ⟨synthColumn fs.sku rnd c 0 fs.sizes, ?_, ?_, ?_, ?_⟩
  · simp only [setColors]
    have hfilter :
        fs.variants.filter
          (fun v => colorIdKept v.color_id ((fs.colors ++ [c]).map ColorItem.id)) =
        fs.variants := by
      refine List.filter_eq_self.mpr (fun v hv => ?_)
      rw [List.map_append]
      exact colorIdKept_append _ _ _ (hkept v hv)
    rw [hfilter, List.flatMap_append]
    rw [reconcile_append_of_present]
    · have hsingle : ([c].flatMap fun c' => fs.sizes.map fun s => (c', s)) =
          fs.sizes.map (fun s => (c, s)) := by
        simp
      rw [hsingle, reconcile_fresh_column _ _ _ _ _ _ hnd]
      intro s _
      rw [Bool.eq_false_iff]
      intro hcon
      rw [hasPair_iff_pairCount] at hcon
      rcases List.countP_pos_iff.mp hcon with ⟨v, hv, hp⟩
      rw [Bool.and_eq_true] at hp
      exact hnew v hv (by simpa using hp.1)
    · intro p hp
      rcases List.mem_flatMap.mp hp with ⟨c', hc', hp'⟩
      rcases List.mem_map.mp hp' with ⟨s', hs', rfl⟩
      rw [hasPair_iff_pairCount, hfull c' hc' s' hs']
      exact Nat.one_pos
  · exact synthColumn_length _ _ _ _ _
  · exact synthColumn_map_size _ _ _ _ _
  · intro v hv
    rcases mem_synthColumn _ _ _ _ _ v hv with ⟨s, _, j, rfl⟩
    exact ⟨rfl, rfl, rfl, rfl, rfl⟩

/-- A fresh green color not yet in the draft. -/
def wGreen : ColorItem := { id := "c-green", name := "Green", hex := "#00ff00" }

theorem claim3_witness :
    (∀ c' ∈ wFull.colors, ∀ s ∈ wFull.sizes, pairCount wFull.variants c'.id s = 1) ∧
    (∀ v ∈ wFull.variants,
      colorIdKept v.color_id (wFull.colors.map ColorItem.id) = true) ∧
    wFull.sizes.Nodup ∧
    (∀ v ∈ wFull.variants, ¬ v.color_id = some wGreen.id) ∧
    (∃ news : List Variant,
      (setColors wRnd (wFull.colors ++ [wGreen]) wFull).variants =
        wFull.variants ++ news ∧
      news.length = wFull.sizes.length ∧
      news.map Variant.size = wFull.sizes ∧
      ∀ v ∈ news, v.color_id = some wGreen.id ∧ v.stock_quantity = 0 ∧
        v.price = none ∧ v.image_urls = [] ∧ v.is_primary = false) :=
  ⟨by decide, by decide, by decide, by decide,
    claim3_setColors_adds_column wRnd wFull wGreen
      (by decide) (by decide) (by decide) (by decide)⟩

/-! ### Claim C5 -/

/-- Two variants agreeing on every field except possibly the primary flag. -/
def agreesExceptPrimary (w v : Variant) : Prop :=
  w.color_id = v.color_id ∧ w.size = v.size ∧ w.sku = v.sku ∧
  w.price = v.price ∧ w.stock_quantity = v.stock_quantity ∧
  w.image_urls = v.image_urls

/-- C5: `setPrimaryColor cid` touches no field but the primary flag, and sets
the flag exactly on the first variant (in list order) whose color is `cid`; in
particular every variant of another color, every later variant of color `cid`,
and every variant at all when no variant has color `cid`, ends up with the
flag cleared. -/
theorem claim5_setPrimaryColor_flags_first_of_color (cid : String)
    (fs : FormState) :
    (setPrimaryColor cid fs).variants.length = fs.variants.length ∧
    ∀ (i : Nat) (hi : i < fs.variants.length)
      (hi2 : i < (setPrimaryColor cid fs).variants.length),
      agreesExceptPrimary ((setPrimaryColor cid fs).variants.get ⟨i, hi2⟩)
        (fs.variants.get ⟨i, hi⟩) ∧
      (((setPrimaryColor cid fs).variants.get ⟨i, hi2⟩).is_primary = true ↔
        ((fs.variants.get ⟨i, hi⟩).color_id = some cid ∧
          ∀ (j : Nat) (hj : j < fs.variants.length), j < i →
            ¬ (fs.variants.get ⟨j, hj⟩).color_id = some cid)) := by
  constructor
  · simp [setPrimaryColor]
  · intro i hi hi2
    have hget : (setPrimaryColor cid fs).variants.get ⟨i, hi2⟩ =
        { fs.variants.get ⟨i, hi⟩ with is_primary :=
            ((fs.variants.get ⟨i, hi⟩).color_id == some cid) &&
            (fs.variants.findIdx (fun w => w.color_id == some cid) == i) } := by
      simp [setPrimaryColor, List.get_eq_getElem, List.getElem_mapIdx]
    rw [hget]
    refine ⟨⟨rfl, rfl, rfl, rfl, rfl, rfl⟩, ?_⟩
    rw [Bool.and_eq_true, beq_iff_eq, Nat.beq_eq_true_eq]
    constructor
    · rintro ⟨hcol, hidx⟩
      refine ⟨hcol, fun j hj hji => ?_⟩
      have hlt : j < fs.variants.findIdx (fun w => w.color_id == some cid) := by
        omega
      have := List.not_of_lt_findIdx hlt
      simp only [List.get_eq_getElem, beq_eq_false_iff_ne, ne_eq] at this ⊢
      exact this
    · rintro ⟨hcol, hmin⟩
      refine ⟨hcol, ?_⟩
      rw [List.findIdx_eq (by omega)]
      constructor
      · simpa using hcol
      · intro j hji
        have hj : j < fs.variants.length := by omega
        have := hmin j hj hji
        simp only [List.get_eq_getElem] at this
        simpa using this

theorem claim5_witness :
    (setPrimaryColor "c-blue" wFull).variants.length = wFull.variants.length ∧
    ∀ (i : Nat) (hi : i < wFull.variants.length)
      (hi2 : i < (setPrimaryColor "c-blue" wFull).variants.length),
      agreesExceptPrimary ((setPrimaryColor "c-blue" wFull).variants.get ⟨i, hi2⟩)
        (wFull.variants.get ⟨i, hi⟩) ∧
      (((setPrimaryColor "c-blue" wFull).variants.get ⟨i, hi2⟩).is_primary = true ↔
        ((wFull.variants.get ⟨i, hi⟩).color_id = some "c-blue" ∧
          ∀ (j : Nat) (hj : j < wFull.variants.length), j < i →
            ¬ (wFull.variants.get ⟨j, hj⟩).color_id = some "c-blue")) :=
  claim5_setPrimaryColor_flags_first_of_color "c-blue" wFull

/-! ### Submit pipeline toolkit -/

/-- Passing the colors-without-variants validation, in the decidable form
`colors empty or variants non-empty`. -/
theorem validation_passes (fs : FormState)
    (hval : fs.colors = [] ∨ fs.variants ≠ []) :
    (fs.colors.length > 0 && fs.variants.length == 0) = false := by
  rcases hval with h | h
  · simp [h]
  · have hlen : fs.variants.length ≠ 0 := fun hc => h (List.length_eq_zero.mp hc)
    simp [Nat.beq_eq_true_eq, hlen]

theorem upload_check_false (env : SubmitEnv) (pending : List PendingFile)
    (hupl : ∀ i, i < pending.length → (env.uploadRes i).isSome = true) :
    ((List.range pending.length).any (fun i => (env.uploadRes i).isNone)) = false := by
  rw [Bool.eq_false_iff]
  intro hcon
  rcases List.any_eq_true.mp hcon with ⟨i, hi, hnone⟩
  rw [List.mem_range] at hi
  have hsome := hupl i hi
  rw [Option.isNone_iff_eq_none] at hnone
  rw [hnone] at hsome
  cases hsome

theorem upload_check_true (env : SubmitEnv) (pending : List PendingFile)
    (hfail : ∃ i, i < pending.length ∧ env.uploadRes i = none) :
    ((List.range pending.length).any (fun i => (env.uploadRes i).isNone)) = true := by
  rcases hfail with ⟨i, hi, hnone⟩
  exact List.any_eq_true.mpr ⟨i, List.mem_range.mpr hi, by simp [hnone]⟩

/-- `applyUpload` only rewrites image lists: any projection blind to
`image_urls` maps through it unchanged. -/
theorem applyUpload_map {α : Type} (url : String) (cid : Option String)
    (vs : List Variant) (f : Variant → α)
    (hf : ∀ v urls, f { v with image_urls := urls } = f v) :
    (applyUpload url cid vs).map f = vs.map f := by
  cases cid with
  | none => rfl
  | some c =>
      by_cases hc : c = ""
      · simp [applyUpload, hc]
      · simp only [applyUpload, if_neg hc, List.map_map]
        refine List.map_congr_left (fun v _ => ?_)
        simp only [Function.comp_apply]
        by_cases hcol : (v.color_id == some c) = true
        · rw [if_pos hcol]
          exact hf v _
        · rw [if_neg hcol]

theorem uploadMerged_map {α : Type} (env : SubmitEnv) (fs : FormState)
    (pending : List PendingFile) (f : Variant → α)
    (hf : ∀ v urls, f { v with image_urls := urls } = f v) :
    (uploadMerged env fs pending).map f = fs.variants.map f := by
  rw [uploadMerged]
  generalize fs.variants = vs
  induction pending.enum generalizing vs with
  | nil => rfl
  | cons p ps ih =>
      rw [List.foldl_cons, ih, applyUpload_map _ _ _ f hf]

theorem uploadMerged_length (env : SubmitEnv) (fs : FormState)
    (pending : List PendingFile) :
    (uploadMerged env fs pending).length = fs.variants.length := by
  have h := uploadMerged_map env fs pending Variant.size (fun _ _ => rfl)
  calc (uploadMerged env fs pending).length
      = ((uploadMerged env fs pending).map Variant.size).length := by
        rw [List.length_map]
    _ = (fs.variants.map Variant.size).length := by rw [h]
    _ = fs.variants.length := by rw [List.length_map]

theorem uploadMerged_nil (env : SubmitEnv) (fs : FormState)
    (pending : List PendingFile) (h : fs.variants = []) :
    uploadMerged env fs pending = [] := by
  have := uploadMerged_length env fs pending
  rw [h] at this
  exact List.length_eq_zero.mp this

/-- Folding `+ stock` from an accumulator is the accumulator plus the stock
sum. -/
theorem foldl_stock_sum (vs : List Variant) :
    ∀ a : Int, vs.foldl (fun acc v => acc + v.stock_quantity) a =
      a + (vs.map Variant.stock_quantity).sum := by
  induction vs with
  | nil => intro a; simp
  | cons v vs ih =>
      intro a
      rw [List.foldl_cons, ih, List.map_cons, List.sum_cons]
      ring

/-- The stock figure in the payload is the variant stock sum of the form. -/
theorem mkProductPayload_stock (env : SubmitEnv) (fs : FormState)
    (pending : List PendingFile) :
    (mkProductPayload env.parseF fs (uploadMerged env fs pending)).stock_quantity =
      (fs.variants.map Variant.stock_quantity).sum := by
  show (uploadMerged env fs pending).foldl (fun acc v => acc + v.stock_quantity) 0 =
    _
  rw [foldl_stock_sum,
    uploadMerged_map env fs pending Variant.stock_quantity (fun _ _ => rfl),
    Int.zero_add]

theorem forcePrimaryHead_length (vs : List Variant) :
    (forcePrimaryHead vs).length = vs.length := by
  cases vs <;> rfl

theorem primaryAdjusted_length (vs : List Variant) :
    (primaryAdjusted vs).length = vs.length := by
  rw [primaryAdjusted]
  by_cases h : (vs.length > 0 && !(vs.any Variant.is_primary)) = true
  · rw [if_pos h, forcePrimaryHead_length]
  · rw [if_neg h]

theorem persistVariants_products (env : SubmitEnv) (cv : List Variant)
    (pid : String) (db : DB) (tr : List Effect) :
    (persistVariants env cv pid db tr).2.1.products = db.products := by
  rw [persistVariants]
  split
  · rfl
  · split
    · rfl
    · dsimp only
      split
      · split <;> rfl
      · rfl

theorem persistVariants_success (env : SubmitEnv) (cv : List Variant)
    (pid : String) (db : DB) (tr : List Effect)
    (hpid : pid ≠ "") (hdel : env.variantDeleteOk = true)
    (hvins : env.variantInsertOk = true) (hne : cv ≠ []) :
    persistVariants env cv pid db tr =
      (.success,
        { db with prodVariants :=
            db.prodVariants.filter (fun r => !(r.product_id == pid)) ++
              (primaryAdjusted cv).map (mkVariantRow pid) },
        tr ++ [.variantDelete pid,
          .variantInsert ((primaryAdjusted cv).map (mkVariantRow pid))]) := by
  have hlen : 0 < ((primaryAdjusted cv).map (mkVariantRow pid)).length := by
    rw [List.length_map, primaryAdjusted_length]
    exact List.length_pos.mpr hne
  rw [persistVariants, if_neg hpid, if_neg (by simp [hdel])]
  dsimp only
  rw [if_pos (by simpa using hlen), if_neg (by simp [hvins])]

theorem persistVariants_insertFail (env : SubmitEnv) (cv : List Variant)
    (pid : String) (db : DB) (tr : List Effect)
    (hpid : pid ≠ "") (hdel : env.variantDeleteOk = true)
    (hvins : env.variantInsertOk = false) (hne : cv ≠ []) :
    persistVariants env cv pid db tr =
      (.insertFailed,
        { db with prodVariants :=
            db.prodVariants.filter (fun r => !(r.product_id == pid)) },
        tr ++ [.variantDelete pid,
          .variantInsert ((primaryAdjusted cv).map (mkVariantRow pid))]) := by
  have hlen : 0 < ((primaryAdjusted cv).map (mkVariantRow pid)).length := by
    rw [List.length_map, primaryAdjusted_length]
    exact List.length_pos.mpr hne
  rw [persistVariants, if_neg hpid, if_neg (by simp [hdel])]
  dsimp only
  rw [if_pos (by simpa using hlen), if_pos hvins]

theorem persistVariants_emptyList (env : SubmitEnv) (cv : List Variant)
    (pid : String) (db : DB) (tr : List Effect)
    (hpid : pid ≠ "") (hdel : env.variantDeleteOk = true) (hcv : cv = []) :
    persistVariants env cv pid db tr =
      (.success,
        { db with prodVariants :=
            db.prodVariants.filter (fun r => !(r.product_id == pid)) },
        tr ++ [.variantDelete pid]) := by
  rw [persistVariants, if_neg hpid, if_neg (by simp [hdel])]
  dsimp only
  rw [if_neg]
  rw [List.length_map, primaryAdjusted_length, hcv]
  simp

/-- `handleSubmit` on the editing path, after validation, uploads and the
product update succeed, is the variant persistence step over the updated
database. -/
theorem handleSubmit_editing (env : SubmitEnv) (pid : String) (fs : FormState)
    (pending : List PendingFile) (db : DB)
    (hval : fs.colors = [] ∨ fs.variants ≠ [])
    (hupl : ∀ i, i < pending.length → (env.uploadRes i).isSome = true)
    (hupd : env.productUpdateOk = true) :
    handleSubmit env (some pid) fs pending db =
      persistVariants env (uploadMerged env fs pending) pid
        { db with products := db.products.map (fun r =>
            if r.id == pid then
              applyPayload
                (mkProductPayload env.parseF fs (uploadMerged env fs pending)) r
            else r) }
        (pending.map (fun pf => Effect.upload pf.fileName) ++
          [.productUpdate pid]) := by
  rw [handleSubmit, if_neg (by simp [validation_passes fs hval])]
  dsimp only
  rw [if_neg (by simp [upload_check_false env pending hupl])]
  rw [if_neg (by simp [hupd])]

/-- `handleSubmit` on the creating path, after validation, uploads and the
product insert succeed, is the variant persistence step over the extended
database. -/
theorem handleSubmit_creating (env : SubmitEnv) (fs : FormState)
    (pending : List PendingFile) (db : DB)
    (hval : fs.colors = [] ∨ fs.variants ≠ [])
    (hupl : ∀ i, i < pending.length → (env.uploadRes i).isSome = true)
    (hins : env.productInsertOk = true) :
    handleSubmit env none fs pending db =
      persistVariants env (uploadMerged env fs pending) env.newProductId
        { db with products := db.products ++
            [{ mkProductPayload env.parseF fs (uploadMerged env fs pending) with
                id := env.newProductId }] }
        (pending.map (fun pf => Effect.upload pf.fileName) ++
          [.productInsert]) := by
  rw [handleSubmit, if_neg (by simp [validation_passes fs hval])]
  dsimp only
  rw [if_neg (by simp [upload_check_false env pending hupl])]
  rw [if_neg (by simp [hins])]

/-- Concrete environment where every external call succeeds. -/
def wEnv : SubmitEnv :=
  { uploadRes := fun _ => some "https://cdn/img.png"
    productUpdateOk := true, productInsertOk := true, newProductId := "p-new"
    variantDeleteOk := true, variantInsertOk := true, parseF := fun _ => 0 }

/-- Same environment but every upload rejects. -/
def wEnvUploadFail : SubmitEnv := { wEnv with uploadRes := fun _ => none }

/-- Same environment but the variant insert call rejects. -/
def wEnvInsFail : SubmitEnv := { wEnv with variantInsertOk := false }

/-- An edit draft whose color set was cleared: no colors, hence no variants. -/
def wEmptyColors : FormState := { resetForm with name := "Tee", price := "10" }

/-- A concrete pre-existing product row. -/
def wProductRow : ProductRow :=
  { id := "p1", sku := "TS", name := "Tee", description := "", price := 10
    discount_price := none, collection_id := none, fabrics := []
    status := "active", stock_quantity := 5 }

/-- A concrete pre-existing variant row of product `p1`. -/
def wOldRow : VariantRow :=
  { product_id := "p1", color_id := some "c-red", size := "S", sku := "OLD"
    price := none, stock_quantity := 5, image_urls := [], is_primary := true }

/-- A concrete remote database holding product `p1` with one variant row. -/
def wDB : DB := { products := [wProductRow], prodVariants := [wOldRow] }

/-- A concrete pending image file. -/
def wPending : PendingFile := { fileName := "shirt.png", colorId := some "c-red" }

/-! ### Claim C6 -/

/-- C6: a submit with a non-empty color set and an empty variant list is
rejected by the client-side validation: the outcome is the validation
rejection, the database is untouched and not a single network call (upload or
database read/write) is issued. -/
theorem claim6_colors_without_variants_rejected (env : SubmitEnv)
    (editing : Option String) (fs : FormState) (pending : List PendingFile)
    (db : DB) (hc : fs.colors ≠ []) (hv : fs.variants = []) :
    handleSubmit env editing fs pending db = (.rejectedValidation, db, []) := by
  have hcond : (fs.colors.length > 0 && fs.variants.length == 0) = true := by
    have h1 : 0 < fs.colors.length := List.length_pos.mpr hc
    simp [h1, hv]
  rw [handleSubmit, if_pos hcond]

theorem claim6_witness :
    ([wRed] : List ColorItem) ≠ [] ∧
    handleSubmit wEnv (some "p1") { resetForm with colors := [wRed] } [] wDB =
      (.rejectedValidation, wDB, []) :=
  ⟨by decide,
    claim6_colors_without_variants_rejected wEnv (some "p1")
      { resetForm with colors := [wRed] } [] wDB (by decide) rfl⟩

/-! ### Claim C8 -/

/-- C8: when validation passes but any single pending upload fails, the whole
save aborts with the upload failure: the database is returned untouched and
the only calls issued are the uploads themselves — no product or variant write
ever starts. -/
theorem claim8_upload_failure_aborts_save (env : SubmitEnv)
    (editing : Option String) (fs : FormState) (pending : List PendingFile)
    (db : DB) (hval : fs.colors = [] ∨ fs.variants ≠ [])
    (hfail : ∃ i, i < pending.length ∧ env.uploadRes i = none) :
    handleSubmit env editing fs pending db =
      (.uploadFailed, db, pending.map (fun pf => Effect.upload pf.fileName)) := by
  rw [handleSubmit, if_neg (by simp [validation_passes fs hval])]
  dsimp only
  rw [if_pos (upload_check_true env pending hfail)]

theorem claim8_witness :
    (wFull.colors = [] ∨ wFull.variants ≠ []) ∧
    (∃ i, i < [wPending].length ∧ wEnvUploadFail.uploadRes i = none) ∧
    handleSubmit wEnvUploadFail (some "p1") wFull [wPending] wDB =
      (.uploadFailed, wDB, [Effect.upload wPending.fileName]) :=
  ⟨Or.inr (by decide), ⟨0, by decide, rfl⟩,
    claim8_upload_failure_aborts_save wEnvUploadFail (some "p1") wFull
      [wPending] wDB (Or.inr (by decide)) ⟨0, by decide, rfl⟩⟩

/-! ### Row bookkeeping after the delete / insert steps -/

/-- Rows surviving the delete step never carry the deleted product id. -/
theorem filter_deleted_rows (rows : List VariantRow) (pid : String) :
    ((rows.filter (fun r => !(r.product_id == pid))).filter
        (fun r => r.product_id == pid)) = [] := by
  rw [List.filter_eq_nil_iff]
  intro r hr
  have hkeep := (List.mem_filter.mp hr).2
  rw [Bool.not_eq_true'] at hkeep
  simp [hkeep]

/-- After replacing a product's rows, filtering by the product id returns
exactly the inserted rows. -/
theorem filter_replaced_rows (old rows : List VariantRow) (pid : String)
    (hrows : ∀ r ∈ rows, r.product_id = pid) :
    ((old.filter (fun r => !(r.product_id == pid)) ++ rows).filter
        (fun r => r.product_id == pid)) = rows := by
  rw [List.filter_append, filter_deleted_rows, List.nil_append]
  exact List.filter_eq_self.mpr (fun r hr => by simp [hrows r hr])

/-- Every row written row-by-row from a variant list carries the product id. -/
theorem mkVariantRow_product_id (pid : String) (cv : List Variant) :
    ∀ r ∈ cv.map (mkVariantRow pid), r.product_id = pid := by
  intro r hr
  rcases List.mem_map.mp hr with ⟨v, _, rfl⟩
  rfl

/-- Any product row matching the edited id in the rewritten `products` list
carries the payload's stock figure. -/
theorem products_updated_stock (db : DB) (pid : String) (payload : ProductRow) :
    ∀ r ∈ db.products.map
        (fun r => if r.id == pid then applyPayload payload r else r),
      r.id = pid → r.stock_quantity = payload.stock_quantity := by
  intro r hr hrid
  rcases List.mem_map.mp hr with ⟨r0, _, rfl⟩
  by_cases hb : (r0.id == pid) = true
  · rw [if_pos hb]
    rfl
  · rw [if_neg hb] at hrid
    exact absurd (by simp [hrid]) hb

/-! ### Claim C7 -/

/-- C7: whenever `handleSubmit` writes the product row (update path or insert
path), the stock figure written is the sum of the variant stocks of the list
being saved, and the value typed in the form's own Stock field plays no role
in the run at all. -/
theorem claim7_product_stock_is_variant_sum (env : SubmitEnv) (pid : String)
    (fs : FormState) (pending : List PendingFile) (db : DB)
    (hval : fs.colors = [] ∨ fs.variants ≠ [])
    (hupl : ∀ i, i < pending.length → (env.uploadRes i).isSome = true)
    (hupd : env.productUpdateOk = true) (hins : env.productInsertOk = true) :
    (∀ r ∈ (handleSubmit env (some pid) fs pending db).2.1.products,
        r.id = pid →
        r.stock_quantity = (fs.variants.map Variant.stock_quantity).sum) ∧
    ((handleSubmit env none fs pending db).2.1.products.getLast?.map
        ProductRow.stock_quantity =
      some ((fs.variants.map Variant.stock_quantity).sum)) ∧
    (∀ (ed : Option String) (q : String),
      handleSubmit env ed { fs with stock_quantity := q } pending db =
        handleSubmit env ed fs pending db) := by
  refine ⟨?_, ?_, ?_⟩
  · rw [handleSubmit_editing env pid fs pending db hval hupl hupd,
      persistVariants_products]
    intro r hr hrid
    rw [products_updated_stock db pid _ r hr hrid]
    exact mkProductPayload_stock env fs pending
  · rw [handleSubmit_creating env fs pending db hval hupl hins,
      persistVariants_products]
    show ((db.products ++ [_]).getLast?.map ProductRow.stock_quantity) = _
    rw [List.getLast?_concat, Option.map_some']
    show some (mkProductPayload env.parseF fs
      (uploadMerged env fs pending)).stock_quantity = _
    rw [mkProductPayload_stock env fs pending]
  · intro ed q
    rfl

theorem claim7_witness :
    (wFull.colors = [] ∨ wFull.variants ≠ []) ∧
    ((∀ r ∈ (handleSubmit wEnv (some "p1") wFull [] wDB).2.1.products,
        r.id = "p1" →
        r.stock_quantity = (wFull.variants.map Variant.stock_quantity).sum) ∧
      ((handleSubmit wEnv none wFull [] wDB).2.1.products.getLast?.map
          ProductRow.stock_quantity =
        some ((wFull.variants.map Variant.stock_quantity).sum)) ∧
      (∀ (ed : Option String) (q : String),
        handleSubmit wEnv ed { wFull with stock_quantity := q } [] wDB =
          handleSubmit wEnv ed wFull [] wDB)) :=
  ⟨Or.inr (by decide),
    claim7_product_stock_is_variant_sum wEnv "p1" wFull [] wDB
      (Or.inr (by decide)) (fun i _ => rfl) rfl rfl⟩

/-! ### Claim C9 -/

/-- C9: variant persistence is delete-then-insert with no transaction: when
the insert succeeds the trace shows the delete strictly before the insert and
the product's rows are wholesale replaced; when the insert fails after the
delete succeeded, the run ends in an error and the product is left with zero
variant rows. -/
theorem claim9_delete_then_insert_not_atomic (env : SubmitEnv) (pid : String)
    (fs : FormState) (pending : List PendingFile) (db : DB)
    (hupl : ∀ i, i < pending.length → (env.uploadRes i).isSome = true)
    (hupd : env.productUpdateOk = true) (hpid : pid ≠ "")
    (hdel : env.variantDeleteOk = true) (hne : fs.variants ≠ []) :
    (env.variantInsertOk = false →
      (handleSubmit env (some pid) fs pending db).1 = .insertFailed ∧
      ((handleSubmit env (some pid) fs pending db).2.1.prodVariants.filter
          (fun r => r.product_id == pid)) = []) ∧
    (env.variantInsertOk = true →
      ∃ rows : List VariantRow, rows.length = fs.variants.length ∧
        (∀ r ∈ rows, r.product_id = pid) ∧
        (handleSubmit env (some pid) fs pending db).2.2 =
          pending.map (fun pf => Effect.upload pf.fileName) ++
            [.productUpdate pid, .variantDelete pid, .variantInsert rows] ∧
        (handleSubmit env (some pid) fs pending db).2.1.prodVariants =
          db.prodVariants.filter (fun r => !(r.product_id == pid)) ++ rows) := by
  have hcv : uploadMerged env fs pending ≠ [] := by
    intro hc
    have hl := uploadMerged_length env fs pending
    rw [hc] at hl
    exact hne (List.length_eq_zero.mp hl.symm)
  rw [handleSubmit_editing env pid fs pending db (Or.inr hne) hupl hupd]
  constructor
  · intro hvins
    rw [persistVariants_insertFail env _ pid _ _ hpid hdel hvins hcv]
    exact ⟨rfl, filter_deleted_rows _ _⟩
  · intro hvins
    rw [persistVariants_success env _ pid _ _ hpid hdel hvins hcv]
    refine ⟨(primaryAdjusted (uploadMerged env fs pending)).map (mkVariantRow pid),
      ?_, mkVariantRow_product_id pid _, ?_, rfl⟩
    · rw [List.length_map, primaryAdjusted_length, uploadMerged_length]
    · simp

theorem claim9_witness :
    (∀ i, i < ([] : List PendingFile).length → (wEnv.uploadRes i).isSome = true) ∧
    ("p1" : String) ≠ "" ∧ wFull.variants ≠ [] ∧
    ((wEnvInsFail.variantInsertOk = false →
        (handleSubmit wEnvInsFail (some "p1") wFull [] wDB).1 = .insertFailed ∧
        ((handleSubmit wEnvInsFail (some "p1") wFull [] wDB).2.1.prodVariants.filter
            (fun r => r.product_id == "p1")) = []) ∧
      (wEnvInsFail.variantInsertOk = true →
        ∃ rows : List VariantRow, rows.length = wFull.variants.length ∧
          (∀ r ∈ rows, r.product_id = "p1") ∧
          (handleSubmit wEnvInsFail (some "p1") wFull [] wDB).2.2 =
            ([] : List PendingFile).map (fun pf => Effect.upload pf.fileName) ++
              [.productUpdate "p1", .variantDelete "p1", .variantInsert rows] ∧
          (handleSubmit wEnvInsFail (some "p1") wFull [] wDB).2.1.prodVariants =
            wDB.prodVariants.filter (fun r => !(r.product_id == "p1")) ++ rows)) :=
  ⟨fun i _ => rfl, by decide, by decide,
    claim9_delete_then_insert_not_atomic wEnvInsFail "p1" wFull [] wDB
      (fun i _ => rfl) rfl (by decide) rfl (by decide)⟩

/-! ### Claim C10 -/

/-- A list flattened through a nil-valued function is empty. -/
theorem flatMap_nil_fun {α β : Type} (l : List α) :
    (l.flatMap (fun _ => ([] : List β))) = [] := by
  induction l with
  | nil => rfl
  | cons a l ih => simpa using ih

/-- C10: clearing the color set empties the variant list (and later size
edits keep it empty), the colors-without-variants validation cannot fire, and
submitting such a draft for an existing product succeeds while deleting every
variant row of the product, inserting none, and writing stock 0 to the product
row. -/
theorem claim10_clearing_colors_wipes_variants :
    (∀ (rnd : Nat → String) (fs : FormState),
      (setColors rnd [] fs).variants = []) ∧
    (∀ (rnd : Nat → String) (ss : List String) (fs : FormState),
      fs.colors = [] → fs.variants = [] →
      (setSizes rnd ss fs).colors = [] ∧ (setSizes rnd ss fs).variants = []) ∧
    (∀ (env : SubmitEnv) (pid : String) (fs : FormState)
        (pending : List PendingFile) (db : DB),
      fs.colors = [] → fs.variants = [] →
      (∀ i, i < pending.length → (env.uploadRes i).isSome = true) →
      env.productUpdateOk = true → env.variantDeleteOk = true → pid ≠ "" →
      (handleSubmit env (some pid) fs pending db).1 = .success ∧
      ((handleSubmit env (some pid) fs pending db).2.1.prodVariants.filter
          (fun r => r.product_id == pid)) = [] ∧
      (∀ r ∈ (handleSubmit env (some pid) fs pending db).2.1.products,
          r.id = pid → r.stock_quantity = 0) ∧
      (handleSubmit env (some pid) fs pending db).2.2 =
        pending.map (fun pf => Effect.upload pf.fileName) ++
          [.productUpdate pid, .variantDelete pid]) := by
  refine ⟨?_, ?_, ?_⟩
  · intro rnd fs
    simp only [setColors, List.map_nil, List.flatMap_nil]
    show reconcile fs.sku rnd 0 _ [] = []
    rw [reconcile]
    exact List.filter_eq_nil_iff.mpr
      (fun v _ => by cases h : v.color_id <;> simp [colorIdKept])
  · intro rnd ss fs hc hv
    constructor
    · simp only [setSizes]
      exact hc
    · simp only [setSizes, hc, hv, List.map_nil]
      rw [List.filter_nil, flatMap_nil_fun]
      rfl
  · intro env pid fs pending db hc hv hupl hupd hdel hpid
    have hmerged : uploadMerged env fs pending = [] :=
      uploadMerged_nil env fs pending hv
    rw [handleSubmit_editing env pid fs pending db (Or.inl hc) hupl hupd,
      persistVariants_emptyList env _ pid _ _ hpid hdel hmerged]
    refine ⟨rfl, filter_deleted_rows _ _, ?_, by simp⟩
    intro r hr hrid
    rw [products_updated_stock db pid _ r hr hrid, mkProductPayload_stock]
    rw [hv]
    rfl

theorem claim10_witness :
    wEmptyColors.colors = [] ∧ wEmptyColors.variants = [] ∧
    ((handleSubmit wEnv (some "p1") wEmptyColors [] wDB).1 = .success ∧
      ((handleSubmit wEnv (some "p1") wEmptyColors [] wDB).2.1.prodVariants.filter
          (fun r => r.product_id == "p1")) = [] ∧
      (∀ r ∈ (handleSubmit wEnv (some "p1") wEmptyColors [] wDB).2.1.products,
          r.id = "p1" → r.stock_quantity = 0) ∧
      (handleSubmit wEnv (some "p1") wEmptyColors [] wDB).2.2 =
        ([] : List PendingFile).map (fun pf => Effect.upload pf.fileName) ++
          [.productUpdate "p1", .variantDelete "p1"]) :=
  ⟨rfl, rfl,
    claim10_clearing_colors_wipes_variants.2.2 wEnv "p1" wEmptyColors [] wDB
      rfl rfl (fun i _ => rfl) rfl rfl (by decide)⟩

/-! ### Primary-flag bookkeeping for claim C4 -/

theorem any_primary_iff_countP (vs : List Variant) :
    vs.any Variant.is_primary = true ↔ 0 < vs.countP Variant.is_primary := by
  rw [List.any_eq_true, List.countP_pos_iff]

theorem countP_primary_map_rows (cv : List Variant) (pid : String) :
    (cv.map (mkVariantRow pid)).countP VariantRow.is_primary =
      cv.countP Variant.is_primary := by
  rw [List.countP_map]
  rfl

theorem countP_primary_eq_of_map (l1 l2 : List Variant)
    (h : l1.map Variant.is_primary = l2.map Variant.is_primary) :
    l1.countP Variant.is_primary = l2.countP Variant.is_primary := by
  have e1 : l1.countP Variant.is_primary =
      (l1.map Variant.is_primary).countP (fun b => b) := by
    rw [List.countP_map]
    rfl
  have e2 : l2.countP Variant.is_primary =
      (l2.map Variant.is_primary).countP (fun b => b) := by
    rw [List.countP_map]
    rfl
  rw [e1, e2, h]

/-- The primary fixup turns a no-primary or single-primary list into a list
with exactly one primary variant (or none when empty). -/
theorem primaryAdjusted_countP (cv : List Variant)
    (h : cv.countP Variant.is_primary ≤ 1) :
    (primaryAdjusted cv).countP Variant.is_primary =
      if cv = [] then 0 else 1 := by
  cases cv with
  | nil => simp [primaryAdjusted]
  | cons v rest =>
      rw [if_neg (List.cons_ne_nil v rest)]
      cases hany : (v :: rest).any Variant.is_primary with
      | true =>
          rw [primaryAdjusted, if_neg (by simp [hany])]
          have hpos : 0 < (v :: rest).countP Variant.is_primary :=
            (any_primary_iff_countP _).mp hany
          omega
      | false =>
          rw [primaryAdjusted, if_pos (by simp [hany])]
          have hz : (v :: rest).countP Variant.is_primary = 0 := by
            rw [List.countP_eq_zero]
            exact List.any_eq_false.mp hany
          rw [List.countP_cons] at hz
          simp only [forcePrimaryHead, List.countP_cons]
          rw [if_pos (by trivial)]
          omega

/-- When no variant of a non-empty list is primary, the fixup flags the head,
keeping its identifying fields. -/
theorem primaryAdjusted_head_of_nonePrimary (cv : List Variant) (hne : cv ≠ [])
    (hz : cv.countP Variant.is_primary = 0) :
    (primaryAdjusted cv).head?.map Variant.is_primary = some true ∧
    (primaryAdjusted cv).head?.map (fun v => (v.color_id, v.size, v.sku)) =
      cv.head?.map (fun v => (v.color_id, v.size, v.sku)) := by
  cases cv with
  | nil => exact absurd rfl hne
  | cons v rest =>
      have hany : (v :: rest).any Variant.is_primary = false := by
        rw [List.any_eq_false]
        exact List.countP_eq_zero.mp hz
      rw [primaryAdjusted, if_pos (by simp [hany])]
      simp [forcePrimaryHead]

/-- After a fully successful persistence step, the product's rows carry
exactly one primary flag (zero for an empty list), and if the list had no
primary flag at all, the flag lands on the head row. -/
theorem persistVariants_primary_outcome (env : SubmitEnv) (cv : List Variant)
    (pid : String) (db : DB) (tr : List Effect)
    (hpid : pid ≠ "") (hdel : env.variantDeleteOk = true)
    (hvins : env.variantInsertOk = true)
    (hatmost : cv.countP Variant.is_primary ≤ 1) :
    (persistVariants env cv pid db tr).1 = .success ∧
    ((persistVariants env cv pid db tr).2.1.prodVariants.filter
        (fun r => r.product_id == pid)).countP VariantRow.is_primary =
      (if cv = [] then 0 else 1) ∧
    ((cv.countP Variant.is_primary = 0 ∧ cv ≠ []) →
      ((persistVariants env cv pid db tr).2.1.prodVariants.filter
          (fun r => r.product_id == pid)).head?.map VariantRow.is_primary =
        some true ∧
      ((persistVariants env cv pid db tr).2.1.prodVariants.filter
          (fun r => r.product_id == pid)).head?.map
          (fun r => (r.color_id, r.size, r.sku)) =
        cv.head?.map (fun v => (v.color_id, v.size, v.sku))) := by
  by_cases hcv : cv = []
  · rw [persistVariants_emptyList env cv pid db tr hpid hdel hcv]
    refine ⟨rfl, ?_, ?_⟩
    · rw [filter_deleted_rows, if_pos hcv]
      rfl
    · rintro ⟨_, hne⟩
      exact absurd hcv hne
  · rw [persistVariants_success env cv pid db tr hpid hdel hvins hcv]
    have hfilter :
        ((db.prodVariants.filter (fun r => !(r.product_id == pid)) ++
            (primaryAdjusted cv).map (mkVariantRow pid)).filter
          (fun r => r.product_id == pid)) =
        (primaryAdjusted cv).map (mkVariantRow pid) :=
      filter_replaced_rows _ _ _ (mkVariantRow_product_id pid _)
    refine ⟨rfl, ?_, ?_⟩
    · rw [hfilter, countP_primary_map_rows, primaryAdjusted_countP cv hatmost,
        if_neg hcv]
    · rintro ⟨hz, _⟩
      obtain ⟨h1, h2⟩ := primaryAdjusted_head_of_nonePrimary cv hcv hz
      rw [hfilter, List.head?_map]
      constructor
      · rw [Option.map_map]
        exact h1
      · rw [Option.map_map]
        exact h2

/-! ### Claim C4 -/

/-- C4: a fully successful save persists exactly one primary variant (zero
when the variant list is empty), provided the submitted list carried at most
one primary flag — which the form's own operations guarantee; and when no
variant was flagged before saving, the first variant in list order is the one
made primary. -/
theorem claim4_exactly_one_primary_after_save (env : SubmitEnv)
    (ed : Option String) (pid : String) (fs : FormState)
    (pending : List PendingFile) (db : DB)
    (hed : ed = some pid ∨ (ed = none ∧ pid = env.newProductId))
    (hval : fs.colors = [] ∨ fs.variants ≠ [])
    (hupl : ∀ i, i < pending.length → (env.uploadRes i).isSome = true)
    (hupd : env.productUpdateOk = true) (hins : env.productInsertOk = true)
    (hdel : env.variantDeleteOk = true) (hvins : env.variantInsertOk = true)
    (hpid : pid ≠ "")
    (hatmost : fs.variants.countP Variant.is_primary ≤ 1) :
    (handleSubmit env ed fs pending db).1 = .success ∧
    (((handleSubmit env ed fs pending db).2.1.prodVariants.filter
        (fun r => r.product_id == pid)).countP VariantRow.is_primary =
      if fs.variants = [] then 0 else 1) ∧
    ((fs.variants.countP Variant.is_primary = 0 ∧ fs.variants ≠ []) →
      ((handleSubmit env ed fs pending db).2.1.prodVariants.filter
          (fun r => r.product_id == pid)).head?.map VariantRow.is_primary =
        some true ∧
      ((handleSubmit env ed fs pending db).2.1.prodVariants.filter
          (fun r => r.product_id == pid)).head?.map
          (fun r => (r.color_id, r.size, r.sku)) =
        fs.variants.head?.map (fun v => (v.color_id, v.size, v.sku))) := by
  have hcount : (uploadMerged env fs pending).countP Variant.is_primary =
      fs.variants.countP Variant.is_primary :=
    countP_primary_eq_of_map _ _
      (uploadMerged_map env fs pending Variant.is_primary (fun _ _ => rfl))
  have hempty : (uploadMerged env fs pending = []) ↔ fs.variants = [] := by
    constructor
    · intro h
      have hl := uploadMerged_length env fs pending
      rw [h] at hl
      exact List.length_eq_zero.mp hl.symm
    · exact uploadMerged_nil env fs pending
  have hhead : (uploadMerged env fs pending).head?.map
      (fun v => (v.color_id, v.size, v.sku)) =
      fs.variants.head?.map (fun v => (v.color_id, v.size, v.sku)) := by
    have hm := uploadMerged_map env fs pending
      (fun v => (v.color_id, v.size, v.sku)) (fun _ _ => rfl)
    rw [← List.head?_map, ← List.head?_map, hm]
  have core : ∀ (db2 : DB) (tr : List Effect),
      (persistVariants env (uploadMerged env fs pending) pid db2 tr).1 =
        .success ∧
      (((persistVariants env (uploadMerged env fs pending) pid db2 tr).2.1.prodVariants.filter
          (fun r => r.product_id == pid)).countP VariantRow.is_primary =
        if fs.variants = [] then 0 else 1) ∧
      ((fs.variants.countP Variant.is_primary = 0 ∧ fs.variants ≠ []) →
        ((persistVariants env (uploadMerged env fs pending) pid db2 tr).2.1.prodVariants.filter
            (fun r => r.product_id == pid)).head?.map VariantRow.is_primary =
          some true ∧
        ((persistVariants env (uploadMerged env fs pending) pid db2 tr).2.1.prodVariants.filter
            (fun r => r.product_id == pid)).head?.map
            (fun r => (r.color_id, r.size, r.sku)) =
          fs.variants.head?.map (fun v => (v.color_id, v.size, v.sku))) := by
    intro db2 tr
    obtain ⟨o1, o2, o3⟩ := persistVariants_primary_outcome env
      (uploadMerged env fs pending) pid db2 tr hpid hdel hvins
      (by rw [hcount]; exact hatmost)
    refine ⟨o1, ?_, ?_⟩
    · rw [o2]
      by_cases hfe : fs.variants = []
      · rw [if_pos hfe, if_pos (hempty.mpr hfe)]
      · rw [if_neg hfe, if_neg (fun hc => hfe (hempty.mp hc))]
    · rintro ⟨hz, hne⟩
      obtain ⟨p1, p2⟩ := o3 ⟨by rw [hcount]; exact hz,
        fun hc => hne (hempty.mp hc)⟩
      exact ⟨p1, p2.trans hhead⟩
  rcases hed with rfl | ⟨rfl, rfl⟩
  · rw [handleSubmit_editing env pid fs pending db hval hupl hupd]
    exact core _ _
  · rw [handleSubmit_creating env fs pending db hval hupl hins]
    exact core _ _

theorem claim4_witness :
    (wFull.colors = [] ∨ wFull.variants ≠ []) ∧
    wFull.variants.countP Variant.is_primary ≤ 1 ∧
    ((handleSubmit wEnv (some "p1") wFull [] wDB).1 = .success ∧
      (((handleSubmit wEnv (some "p1") wFull [] wDB).2.1.prodVariants.filter
          (fun r => r.product_id == "p1")).countP VariantRow.is_primary =
        if wFull.variants = [] then 0 else 1) ∧
      ((wFull.variants.countP Variant.is_primary = 0 ∧ wFull.variants ≠ []) →
        ((handleSubmit wEnv (some "p1") wFull [] wDB).2.1.prodVariants.filter
            (fun r => r.product_id == "p1")).head?.map VariantRow.is_primary =
          some true ∧
        ((handleSubmit wEnv (some "p1") wFull [] wDB).2.1.prodVariants.filter
            (fun r => r.product_id == "p1")).head?.map
            (fun r => (r.color_id, r.size, r.sku)) =
          wFull.variants.head?.map (fun v => (v.color_id, v.size, v.sku)))) :=
  ⟨Or.inr (by decide), by decide,
    claim4_exactly_one_primary_after_save wEnv (some "p1") "p1" wFull [] wDB
      (Or.inl rfl) (Or.inr (by decide)) (fun i _ => rfl) rfl rfl rfl rfl
      (by decide) (by decide)⟩

end QisseyAdmin
